import Mathlib

/-!
# Verification of the SmartInertia signal-processing core

Shallow embedding of `src/smartinertia/data.py` (the repetition-segmentation
and statistics engine) over exact rationals, together with theorems settling
the specification claims.

Machine floats are modelled as `ℚ` with exact arithmetic; `np.pi` is the
IEEE-754 double nearest to π, an exact rational.  The order-5 Butterworth
filter of `scipy.signal` has irrational-valued coefficients, so the single
forward filtering pass (`scipy.signal.lfilter` with those coefficients) is
kept abstract as a function parameter `L`; the structure of
`scipy.signal.filtfilt` (forward pass, then a second pass over the reversed
signal) is modelled explicitly on top of `L`.
-/

unseal Rat.add Rat.mul Rat.sub Rat.inv Rat.ofScientific

set_option maxRecDepth 10000

namespace SmartInertia

/-- Module constant `START_RUNS = 3` of data.py. -/
def START_RUNS : ℕ := 3

/-- Module constant `COUNTED_RUNS = 6` of data.py. -/
def COUNTED_RUNS : ℕ := 6

/-- Module constant `MIN_FREQ_START = 2` of data.py. -/
def MIN_FREQ_START : ℚ := 2

/-- Module constant `SAMPLES_FOR_FILTER = 30` of data.py. -/
def SAMPLES_FOR_FILTER : ℕ := 30

/-- Module constant `SAMPLING_FREQ = 1000` of data.py. -/
def SAMPLING_FREQ : ℚ := 1000

/-- Module constant `RADIUS = 0.015` of data.py. -/
def RADIUS : ℚ := 15/1000

/-- The IEEE-754 double value of `np.pi`, as an exact rational
(884279719003555 / 2^48). -/
def npPi : ℚ := 884279719003555 / 281474976710656

/-- Translation of `DataSet = namedtuple('DataSet', ['x', 'y'])` of data.py. -/
structure DataSetQ where
  x : List ℚ
  y : List ℚ
deriving Repr, DecidableEq

/-- Model of `numpy.argmax` on a 1-d array: index of the first occurrence of
the maximum (0 on the empty list, where numpy raises). -/
def argmaxIdx (l : List ℚ) : ℕ :=
  (List.range l.length).foldl
    (fun best i => if l.getD best 0 < l.getD i 0 then i else best) 0

/-- Model of `numpy.argmin` on a 1-d array: index of the first occurrence of
the minimum (0 on the empty list, where numpy raises). -/
def argminIdx (l : List ℚ) : ℕ :=
  (List.range l.length).foldl
    (fun best i => if l.getD i 0 < l.getD best 0 then i else best) 0

/-- Model of `numpy.arange(start, stop, step)` for positive `step`: the
values `start + i*step` for `0 ≤ i < ⌈(stop - start)/step⌉`. -/
def npArange (start stop step : ℚ) : List ℚ :=
  (List.range (⌈(stop - start) / step⌉.toNat)).map
    (fun i : ℕ => start + (i : ℚ) * step)

/-- Model of `numpy.interp(t, xp, yp)` for one query point `t`, with `xp`
increasing: clamped linear interpolation between the knots.  Returns 0 when
the knot lists are empty (numpy raises there). -/
def npInterp : List ℚ → List ℚ → ℚ → ℚ
  | x0 :: x1 :: xr, y0 :: y1 :: yr, t =>
    if t ≤ x0 then y0
    else if t ≤ x1 then y0 + (t - x0) * (y1 - y0) / (x1 - x0)
    else npInterp (x1 :: xr) (y1 :: yr) t
  | _, y0 :: _, _ => y0
  | _, [], _ => 0

/-- Python slice `l[i:j]` on a list. -/
def pySlice (l : List ℚ) (i j : ℕ) : List ℚ :=
  (l.drop i).take (j - i)

/-- Translation of `interpolation` of data.py: resample a DataSet onto the uniform grid
`np.arange(x[0], x[-1] + 1/SAMPLING_FREQ, 1/SAMPLING_FREQ)` by linear
interpolation.  `none` models the IndexError on an empty input
(`xp[0]`/`xp[-1]`), and the numpy error when the value list is empty. -/
def interpolation (data : DataSetQ) : Option DataSetQ :=
  match data.x, data.y with
  | [], _ => none
  | _, [] => none
  | x0 :: xr, y0 :: yr =>
    let space := 1 / SAMPLING_FREQ
    let xp := x0 :: xr
    let yp := y0 :: yr
    let xl := xp.getLast?.getD 0
    let xs := npArange x0 (xl + space) space
    some ⟨xs, xs.map (npInterp xp yp)⟩

/-- Model of `numpy.gradient(y, x)` (default `edge_order=1`): one-sided
differences at the two endpoints, the second-order non-uniform central
formula at interior points.  Returns `[]` when fewer than 2 points are given
(numpy raises there). -/
def npGradient (x y : List ℚ) : List ℚ :=
  if x.length < 2 ∨ y.length < 2 then []
  else
    let n := y.length
    (List.range n).map (fun i =>
      if i = 0 then
        (y.getD 1 0 - y.getD 0 0) / (x.getD 1 0 - x.getD 0 0)
      else if i = n - 1 then
        (y.getD (n-1) 0 - y.getD (n-2) 0) / (x.getD (n-1) 0 - x.getD (n-2) 0)
      else
        let hs := x.getD i 0 - x.getD (i-1) 0
        let hd := x.getD (i+1) 0 - x.getD i 0
        (hs^2 * y.getD (i+1) 0 + (hd^2 - hs^2) * y.getD i 0
          - hd^2 * y.getD (i-1) 0) / (hs * hd * (hd + hs)))

/-- Translation of `derivative_gradient` of data.py: numerical gradient of y with respect
to x. -/
def derivative_gradient (data : DataSetQ) : DataSetQ :=
  ⟨data.x, npGradient data.x data.y⟩

/-- Model of `scipy.signal.lfilter(b, a, x)` with zero initial conditions:
the linear recurrence
`a0*y[n] = sum b[k]*x[n-k] - sum_{k>=1} a[k]*y[n-k]`.
Used only to build concrete instances of the abstract forward pass. -/
def lfilterQ (b a : List ℚ) (x : List ℚ) : List ℚ :=
  let a0 := a.headD 1
  (List.range x.length).foldl (fun ys i =>
    let ff := (List.range b.length).foldl (fun s k =>
      if k ≤ i then s + b.getD k 0 * x.getD (i - k) 0 else s) 0
    let fb := (List.range a.length).foldl (fun s k =>
      if 1 ≤ k ∧ k ≤ i then s + a.getD k 0 * ys.getD (i - k) 0 else s) 0
    ys ++ [(ff - fb) / a0]) []

/-- Translation of `butter_lowpass_filter` of data.py.  The code designs an order-5
Butterworth low-pass filter (`scipy.signal.butter`) and applies it with
`scipy.signal.filtfilt`: one forward pass of the linear filter, then a
second pass over the reversed output, undoing the phase shift.  The single
forward pass (`scipy.signal.lfilter` with the Butterworth coefficients,
whose exact values are irrational library floats) is the abstract parameter
`L`; `none` models a numerical failure raising inside the filter.  The
padding and initial-condition refinements of `filtfilt` are absorbed
into `L`-level failure and not reproduced pointwise. -/
def butter_lowpass_filter (L : List ℚ → Option (List ℚ))
    (data : DataSetQ) : Option DataSetQ :=
  match L data.y with
  | none => none
  | some y1 =>
    match L y1.reverse with
    | none => none
    | some y2 => some ⟨data.x, y2.reverse⟩

/-- Spec-side alternative (`Modelled from the spec`): a causal, forward-only
low-pass filter as §4.2 and §4.5 of the spec describe for the live path: a
single forward pass, no backward pass. -/
def causal_lowpass_spec (L : List ℚ → Option (List ℚ))
    (data : DataSetQ) : Option DataSetQ :=
  match L data.y with
  | none => none
  | some y1 => some ⟨data.x, y1⟩

/-- Model of `scipy.signal.argrelmax(segment, order=1)[0]` (default clip
mode): the indices whose both neighbours exist and are strictly smaller.
The result is ascending, matching the `sorted(...)` call in the source. -/
def relMaxIndices (l : List ℚ) : List ℕ :=
  (List.range l.length).filter (fun i =>
    decide (0 < i) && decide (i + 1 < l.length) &&
    decide (l.getD (i-1) 0 < l.getD i 0) &&
    decide (l.getD (i+1) 0 < l.getD i 0))

/-- Translation of `find_second_peak` of data.py (the PeakPicker).  Despite its `-> int`
annotation the function returns the chosen peak value.  `none` models the
numpy error of `segment.max()` on an empty array. -/
def find_second_peak (segment : List ℚ) : Option ℚ :=
  match segment with
  | [] => none
  | s0 :: srest =>
    let seg := s0 :: srest
    let global_max := List.foldl max s0 srest
    let potential_maxes := relMaxIndices seg
    if potential_maxes.isEmpty then some global_max
    else
      let pLast := seg.getD (potential_maxes.getLast?.getD 0) 0
      let cand :=
        if 1 < potential_maxes.length ∧ pLast = global_max then
          seg.getD (potential_maxes.getD (potential_maxes.length - 2) 0) 0
        else pLast
      if cand / global_max < 9/10 then some global_max else some cand

/-- The run configuration fields the core reads (`RunConf` of dialogs.py):
`weight` and `load` are the only fields `data.py` uses numerically. -/
structure RunConfQ where
  weight : ℚ
  load : ℚ
deriving Repr, DecidableEq

/-- Linear velocity series of the physics pipeline (lines 136-137 and
163-164 of data.py): `frequency * 2 * pi * RADIUS`. -/
def linear_velocity (fd : DataSetQ) : List ℚ :=
  (fd.y.map (fun f => f * 2 * npPi)).map (fun w => w * RADIUS)

/-- Force series of the physics pipeline (lines 142-143 and 167-168 of
data.py): `abs(angular_acceleration * (load / RADIUS)) + weight * 9.8`. -/
def force_series (conf : RunConfQ) (fd : DataSetQ) : List ℚ :=
  let angular_velocity := fd.y.map (fun f => f * 2 * npPi)
  let angular_acceleration :=
    (derivative_gradient ⟨fd.x, angular_velocity⟩).y
  (angular_acceleration.map (fun acc => |acc * (conf.load / RADIUS)|)).map
    (fun f => f + conf.weight * (98/10))

/-- Power series of the physics pipeline (lines 145 and 169 of data.py):
`force * linear_velocity` elementwise. -/
def power_series (conf : RunConfQ) (fd : DataSetQ) : List ℚ :=
  List.zipWith (fun f v => f * v) (force_series conf fd) (linear_velocity fd)

/-- The mutable state of class `Data` of data.py that the claims concern
(`master`, `run_conf` and `run_saved` are omitted: the first is the GUI
handle, the last only gates saving; the run configuration is passed as an
explicit parameter). -/
structure DataState where
  raw_x : List ℚ
  raw_y : List ℚ
  bar_h : List ℚ
  new_bar_time : List ℚ
  descending_freq : Bool
  run_started : Bool
deriving Repr, DecidableEq

/-- The state `Data.__init__` (and `Data.clear`) sets up. -/
def initState : DataState :=
  ⟨[], [], [], [], false, false⟩

/-- Replace the last element of a list (`l[-1] = v`), identity on `[]`
(where Python raises). -/
def setLast : List ℚ → ℚ → List ℚ
  | [], _ => []
  | [_], v => [v]
  | a :: b :: r, v => a :: setLast (b :: r) v

/-- Last element with default (`l[-1]`). -/
def lastD (l : List ℚ) (d : ℚ) : ℚ :=
  l.getLast?.getD d

/-- Outcome of one live power estimate: either an estimate value, or the
run aborted (the source closes the connection, pops a warning dialog and
terminates the whole process). -/
inductive LiveOutcome
  | aborted
  | est (p : ℚ)
deriving Repr, DecidableEq

/-- Translation of `Data.calc_recent_power` of data.py.  Returns 0 when fewer than
`SAMPLES_FOR_FILTER` samples exist or the whole raw buffer spans less than
0.2 s; otherwise interpolates the window of the last `SAMPLES_FOR_FILTER`
samples, filters it (aborting the run if the filter raises), runs the
physics pipeline and takes the middle value `power[len(power) // 2]`.
The unreachable failure of `interpolation` on an empty window (the guard
guarantees 30 samples) is mapped to `aborted` as well. -/
def calc_recent_power (L : List ℚ → Option (List ℚ)) (conf : RunConfQ)
    (st : DataState) : LiveOutcome :=
  if st.raw_x.length < SAMPLES_FOR_FILTER ∨
      lastD st.raw_x 0 - st.raw_x.headD 0 < 2/10 then
    .est 0
  else
    let wx := st.raw_x.drop (st.raw_x.length - SAMPLES_FOR_FILTER)
    let wy := st.raw_y.drop (st.raw_y.length - SAMPLES_FOR_FILTER)
    match interpolation ⟨wx, wy⟩ with
    | none => .aborted
    | some inter_data =>
      match butter_lowpass_filter L inter_data with
      | none => .aborted
      | some filtered_data =>
        let power := power_series conf filtered_data
        .est (power.getD (power.length / 2) 0)

/-- The part of `Data.add_new` after the run-start gate (lines 103-118 of
data.py): append the sample, update the hysteresis flag and the boundary
lists, then fold the live power estimate into the last bar. -/
def add_started (L : List ℚ → Option (List ℚ)) (conf : RunConfQ)
    (st : DataState) (x y : ℚ) : Option DataState :=
  let st1 := { st with raw_x := st.raw_x ++ [x], raw_y := st.raw_y ++ [y] }
  let st2 :=
    if st1.descending_freq = false ∧ y < 9/10 then
      { st1 with descending_freq := true }
    else st1
  let st3 :=
    if st2.descending_freq = true ∧ y > 1 then
      { st2 with bar_h := st2.bar_h ++ [0],
                 new_bar_time := st2.new_bar_time ++ [x],
                 descending_freq := false }
    else st2
  match calc_recent_power L conf st3 with
  | .aborted => none
  | .est p => some { st3 with bar_h := setLast st3.bar_h (max (lastD st3.bar_h 0) p) }

/-- Translation of `Data.add_new` of data.py: the per-sample handler.  Before the run has
started, a sample at or below `MIN_FREQ_START` is dropped without touching
the state; the first sample above the threshold starts the run, appending
the initial bar slot and recording the constant 0 as its boundary time.
`none` models the process-terminating abort inside `calc_recent_power`. -/
def add_new (L : List ℚ → Option (List ℚ)) (conf : RunConfQ)
    (st : DataState) (pt : ℚ × ℚ) : Option DataState :=
  let x := pt.1
  let y := pt.2
  if st.run_started = false then
    if y > MIN_FREQ_START then
      add_started L conf
        { st with bar_h := st.bar_h ++ [0],
                  new_bar_time := st.new_bar_time ++ [0],
                  run_started := true } x y
    else some st
  else
    add_started L conf st x y

/-- Feed a list of samples through `add_new`, stopping at an abort. -/
def runPoints (L : List ℚ → Option (List ℚ)) (conf : RunConfQ)
    (st : DataState) : List (ℚ × ℚ) → Option DataState
  | [] => some st
  | p :: ps =>
    match add_new L conf st p with
    | none => none
    | some st2 => runPoints L conf st2 ps

/-- Outcome of `Data.report` of data.py: `invalid` pops the
invalid-measurement warning and returns with no statistics; `warned` pops
the insufficient-measurement warning and still computes and reports the
statistics; `full` computes and reports without a warning. -/
inductive ReportOutcome
  | invalid
  | warned
  | full
deriving Repr, DecidableEq

/-- Whether a report outcome computes and shows statistics. -/
def ReportOutcome.statsComputed : ReportOutcome → Bool
  | .invalid => false
  | .warned => true
  | .full => true

/-- The validation branch structure of `Data.report` (lines 228-241 of
data.py), driven by `len(self.bar_h)`. -/
def report (st : DataState) : ReportOutcome :=
  if st.bar_h.length < START_RUNS + 1 then .invalid
  else if st.bar_h.length < START_RUNS + COUNTED_RUNS + 1 then .warned
  else .full

/-- Translation of `RunData` of data.py: the twelve per-repetition metrics. -/
structure RunDataQ where
  v_con_max : ℚ
  v_ecc_max : ℚ
  v_con_mean : ℚ
  v_ecc_mean : ℚ
  f_con_max : ℚ
  f_ecc_max : ℚ
  f_con_mean : ℚ
  f_ecc_mean : ℚ
  p_con_max : ℚ
  p_ecc_max : ℚ
  p_con_mean : ℚ
  p_ecc_mean : ℚ
deriving Repr, DecidableEq

/-- Model of `numpy .mean()`: `none` on the empty array (where numpy yields nan). -/
def npMeanQ (l : List ℚ) : Option ℚ :=
  match l with
  | [] => none
  | _ => some (l.sum / l.length)

/-- Model of `numpy .max()`: `none` on the empty array (where numpy raises). -/
def npMaxQ (l : List ℚ) : Option ℚ :=
  match l with
  | [] => none
  | a :: r => some (List.foldl max a r)

/-- Line 172-173 of data.py: map each recorded boundary time to the index
of the nearest grid point (`np.abs(x - t).argmin()`), then append the last
index of the grid. -/
def new_bar_positions (fd : DataSetQ) (times : List ℚ) : List ℕ :=
  times.map (fun t => argminIdx (fd.x.map (fun xi => |xi - t|)))
    ++ [fd.x.length - 1]

/-- Lines 176-181 of data.py: starting from `[0]`, for each pair `(i, j)`
of consecutive mapped boundary positions refine the cut to
`middle + argmin(y[middle:j])` with `middle = i + (j - i) // 2`.
(For `i ≤ j`, Python `int((j-i)/2)` is the same floor division as here;
an empty `y[middle:j]` makes numpy raise, modelled by `argminIdx [] = 0`.) -/
def exact_new_segment (fd : DataSetQ) (times : List ℚ) : List ℕ :=
  let pos := new_bar_positions fd times
  0 :: (pos.zip pos.tail).map (fun ij =>
    let middle := ij.1 + (ij.2 - ij.1) / 2
    middle + argminIdx (pySlice fd.y middle ij.2))

/-- Line 184 of data.py: the Python slice
`exact_new_segment[START_RUNS : START_RUNS + COUNTED_RUNS + 1]`. -/
def kept_segments (fd : DataSetQ) (times : List ℚ) : List ℕ :=
  ((exact_new_segment fd times).drop START_RUNS).take (COUNTED_RUNS + 1)

/-- Lines 188-204 of data.py: the twelve statistics of the repetition
spanning grid indices `[i, j)`, split at `m = argmax(y[i:j]) + i` into the
concentric phase `[i, m)` and eccentric phase `[m, j)`.  `none` models the
numpy failure on an empty phase slice. -/
def rep_stats (conf : RunConfQ) (fd : DataSetQ) (i j : ℕ) : Option RunDataQ := do
  let m := argmaxIdx (pySlice fd.y i j) + i
  let lv := linear_velocity fd
  let force := force_series conf fd
  let power := power_series conf fd
  let v_con_max ← find_second_peak (pySlice lv i m)
  let v_ecc_max ← find_second_peak (pySlice lv m j)
  let v_con_mean ← npMeanQ (pySlice lv i m)
  let v_ecc_mean ← npMeanQ (pySlice lv m j)
  let f_con_max ← npMaxQ (pySlice force i m)
  let f_ecc_max ← npMaxQ (pySlice force m j)
  let f_con_mean ← npMeanQ (pySlice force i m)
  let f_ecc_mean ← npMeanQ (pySlice force m j)
  let p_con_max ← npMaxQ (pySlice power i m)
  let p_ecc_max ← npMaxQ (pySlice power m j)
  let p_con_mean ← npMeanQ (pySlice power i m)
  let p_ecc_mean ← npMeanQ (pySlice power m j)
  pure ⟨v_con_max, v_ecc_max, v_con_mean, v_ecc_mean,
        f_con_max, f_ecc_max, f_con_mean, f_ecc_mean,
        p_con_max, p_ecc_max, p_con_mean, p_ecc_mean⟩

/-- The per-repetition results list of `Data.calc_stats` (lines 187-204 of
data.py), taking the filtered DataSet as input.  The final averaging and
rounding into a single `RunData` (lines 207-220) is not modelled: no claim
refers to it. -/
def calc_results (conf : RunConfQ) (fd : DataSetQ) (times : List ℚ) :
    Option (List RunDataQ) :=
  let ks := kept_segments fd times
  (ks.zip ks.tail).mapM (fun ij => rep_stats conf fd ij.1 ij.2)

/-- Translation of `Data.calc_stats` of data.py up to the per-repetition results:
interpolate the raw buffer, apply the zero-phase filter, then compute the
statistics.  A filter failure here (`none`) is the offline abort path. -/
def calc_stats (L : List ℚ → Option (List ℚ)) (conf : RunConfQ)
    (st : DataState) : Option (List RunDataQ) := do
  let inter ← interpolation ⟨st.raw_x, st.raw_y⟩
  let fd ← butter_lowpass_filter L inter
  calc_results conf fd st.new_bar_time

/-! ## Spec-side definitions

Definitions below this point follow the words of the specification, for
comparison with the source-side definitions above. -/

/-- Modelled from the spec (§4.5): the live estimate per the spec applies
the low-pass filter in causal mode, i.e. a single forward pass.  This is
`calc_recent_power` with `causal_lowpass_spec` in place of the
forward-backward `butter_lowpass_filter`. -/
def calc_recent_power_causal_spec (L : List ℚ → Option (List ℚ))
    (conf : RunConfQ) (st : DataState) : LiveOutcome :=
  if st.raw_x.length < SAMPLES_FOR_FILTER ∨
      lastD st.raw_x 0 - st.raw_x.headD 0 < 2/10 then
    .est 0
  else
    let wx := st.raw_x.drop (st.raw_x.length - SAMPLES_FOR_FILTER)
    let wy := st.raw_y.drop (st.raw_y.length - SAMPLES_FOR_FILTER)
    match interpolation ⟨wx, wy⟩ with
    | none => .aborted
    | some inter_data =>
      match causal_lowpass_spec L inter_data with
      | none => .aborted
      | some filtered_data =>
        let power := power_series conf filtered_data
        .est (power.getD (power.length / 2) 0)

/-- Modelled from the spec (§4.7 and claim C3): the PeakPicker with the
90%-rule read literally as a value comparison, `chosen < 0.9 * max`,
instead of the ratio comparison `chosen / max < 0.9` of the source. -/
def claim_peak (segment : List ℚ) : Option ℚ :=
  match segment with
  | [] => none
  | s0 :: srest =>
    let seg := s0 :: srest
    let global_max := List.foldl max s0 srest
    let potential_maxes := relMaxIndices seg
    if potential_maxes.isEmpty then some global_max
    else
      let pLast := seg.getD (potential_maxes.getLast?.getD 0) 0
      let cand :=
        if 1 < potential_maxes.length ∧ pLast = global_max then
          seg.getD (potential_maxes.getD (potential_maxes.length - 2) 0) 0
        else pLast
      if cand < (9/10) * global_max then some global_max else some cand

/-- A strictly unimodal list: strictly increasing up to position `k`, then
strictly decreasing. -/
def StrictlyUnimodal (l : List ℚ) : Prop :=
  ∃ k, k < l.length ∧
    (∀ i, i < k → l.getD i 0 < l.getD (i+1) 0) ∧
    (∀ i, i < l.length - 1 → k ≤ i → l.getD (i+1) 0 < l.getD i 0)

/-- Spec-side hysteresis cycle counter (§4.5 and claim C9): starting from a
phase flag (`true` = frequency has been seen below 0.9 and has not yet come
back above 1.0), count the completed fall-below-0.9-then-rise-above-1.0
cycles in a frequency list. -/
def spec_cycle_count : Bool → List ℚ → ℕ
  | _, [] => 0
  | true, y :: ys =>
    if y > 1 then 1 + spec_cycle_count false ys else spec_cycle_count true ys
  | false, y :: ys =>
    if y < 9/10 then spec_cycle_count true ys else spec_cycle_count false ys

/-- Spec-side slot count (claim C9): 0 until some sample exceeds the start
threshold, else one initial slot plus one per completed hysteresis cycle
after the starting sample. -/
def spec_slots (trace : List (ℚ × ℚ)) : ℕ :=
  match trace.dropWhile (fun p => !decide (MIN_FREQ_START < p.2)) with
  | [] => 0
  | _ :: ps => 1 + spec_cycle_count false (ps.map Prod.snd)

/-- Whether a started-state sample at frequency `y` triggers a new
repetition boundary from hysteresis flag `desc` (the combined effect of
lines 106-114 of data.py). -/
def boundary_step (desc : Bool) (y : ℚ) : Bool :=
  (desc || decide (y < 9/10)) && decide (1 < y)

/-- The hysteresis flag after a started-state sample at frequency `y`. -/
def desc_step (desc : Bool) (y : ℚ) : Bool :=
  if boundary_step desc y then false else (desc || decide (y < 9/10))

/-! ## Concrete instances for counterexamples and witnesses -/

/-- A filter forward pass that always fails (models `filtfilt` raising). -/
def Lnone : List ℚ → Option (List ℚ) := fun _ => none

/-- The identity forward pass (always succeeds). -/
def Lid : List ℚ → Option (List ℚ) := fun y => some y

/-- A concrete causal forward pass: the FIR filter `y[n] = x[n] + x[n-1]`
(`scipy.signal.lfilter` with `b = [1, 1]`, `a = [1]`). -/
def Lfir : List ℚ → Option (List ℚ) := fun y => some (lfilterQ [1, 1] [1] y)

/-- A run configuration with zero weight and zero load. -/
def conf0 : RunConfQ := ⟨0, 0⟩

/-- A run configuration with zero weight and unit load. -/
def confLoad : RunConfQ := ⟨0, 1⟩

/-- A started state whose raw buffer holds 30 samples spanning 0.29 s. -/
def stC1 : DataState :=
  ⟨(List.range 30).map (fun i => (i : ℚ) / 100),
   (List.range 30).map (fun i => (i : ℚ) / 100),
   [0], [0], false, true⟩

/-- A started state with 31 samples: one at time 0, then 30 samples at
1 ms spacing from 0.2 s on (frequency ramp 0,1,...,29), so the whole
buffer spans more than 0.2 s while the 30-sample filter window is the
1 ms-spaced ramp. -/
def stC6 : DataState :=
  ⟨0 :: (List.range 30).map (fun i => 2/10 + (i : ℚ) / 1000),
   5 :: (List.range 30).map (fun i => (i : ℚ)),
   [0], [0], false, true⟩

/-- The filtered frequency series of the C2 counterexample run, on the
uniform grid `i/1000`, `i = 0..15`. -/
def fdC2 : DataSetQ :=
  ⟨(List.range 16).map (fun i => (i : ℚ) / 1000),
   [0, 5, 1, 5, 1, 5, 2, 1, 10, 11, 21/2, 1, 1/2, 2, 3, 4]⟩

/-- Recorded boundary times of the C2 counterexample run, mapping to grid
positions 1, 3, 5, 9. -/
def timesC2 : List ℚ := [1/1000, 3/1000, 5/1000, 9/1000]

/-- The C3 counterexample segment: all values negative, two interior
relative maxima at indices 1 (value -1, the global max) and 3 (value -5). -/
def segC3 : List ℚ := [-10, -1, -10, -5, -10]

/-- A strictly unimodal segment for the C3 witness. -/
def segC3uni : List ℚ := [1, 3, 7, 4, 2]

/-- A positive-maximum segment with two relative maxima for the C3
witness of the ratio rule. -/
def segC3pos : List ℚ := [0, 10, 0, 2, 0]

/-- The C5 counterexample inputs: a single-point DataSet, and a two-point
DataSet whose span is not a multiple of the 1 ms grid step. -/
def dC5one : DataSetQ := ⟨[1], [5]⟩

/-- Two points 1.5 ms apart: the output grid overshoots `x[-1]`. -/
def dC5frac : DataSetQ := ⟨[0, 3/2000], [0, 1]⟩

/-- A well-formed two-point DataSet for the C5 witness. -/
def dC5ok : DataSetQ := ⟨[0, 1/100], [0, 1]⟩

/-! ## Helper lemmas -/

lemma setLast_length (l : List ℚ) (v : ℚ) : (setLast l v).length = l.length := by
  induction l with
  | nil => rfl
  | cons a r ih =>
    cases r with
    | nil => rfl
    | cons b r2 => simpa [setLast] using ih

lemma getD_setLast_max (l : List ℚ) (p : ℚ) (k : ℕ) (hk : k < l.length) :
    l.getD k 0 ≤ (setLast l (max (lastD l 0) p)).getD k 0 := by
  induction l generalizing k with
  | nil => simp at hk
  | cons a r ih =>
    cases r with
    | nil =>
      cases k with
      | zero => simp [setLast, lastD, List.getD]
      | succ k2 => simp at hk
    | cons b r2 =>
      cases k with
      | zero => simp [setLast, List.getD]
      | succ k2 =>
        have hlast : lastD (a :: b :: r2) 0 = lastD (b :: r2) 0 := by
          simp [lastD, List.getLast?]
        simp only [setLast, hlast, List.getD_cons_succ]
        exact ih k2 (by simpa using hk)

/-! ## Theorems for the claims -/

/-- Claim C4.  At run end, if fewer than `START_RUNS + 1 = 4` repetitions
were detected (`len(bar_h)`), the run is reported invalid and no statistics
are produced; with at least 4 but fewer than `START_RUNS + COUNTED_RUNS +
1 = 10`, statistics are still computed, accompanied only by the
partial-measurement warning. -/
theorem C4_report_validation (st : DataState) :
    (st.bar_h.length < 4 →
      report st = .invalid ∧ (report st).statsComputed = false) ∧
    (4 ≤ st.bar_h.length → st.bar_h.length < 10 →
      report st = .warned ∧ (report st).statsComputed = true) := by
  constructor
  · intro h
    have h4 : st.bar_h.length < START_RUNS + 1 := by
      simp only [START_RUNS]; omega
    simp [report, h4, ReportOutcome.statsComputed]
  · intro h1 h2
    have h4 : ¬ st.bar_h.length < START_RUNS + 1 := by
      simp only [START_RUNS]; omega
    have h10 : st.bar_h.length < START_RUNS + COUNTED_RUNS + 1 := by
      simp only [START_RUNS, COUNTED_RUNS]; omega
    simp [report, h4, h10, ReportOutcome.statsComputed]

/-- Witness for C4 at a 3-bar state and a 4-bar state. -/
theorem C4_report_validation_witness :
    (report ⟨[], [], [0, 0, 0], [0, 0, 0], false, true⟩ = .invalid ∧
      (report ⟨[], [], [0, 0, 0], [0, 0, 0], false, true⟩).statsComputed = false) ∧
    (report ⟨[], [], [0, 0, 0, 0], [0, 0, 0, 0], false, true⟩ = .warned ∧
      (report ⟨[], [], [0, 0, 0, 0], [0, 0, 0, 0], false, true⟩).statsComputed = true) :=
  ⟨(C4_report_validation _).1 (by decide),
   (C4_report_validation _).2 (by decide) (by decide)⟩

/-- Claim C1, counterexample.  With a filter that fails on every window
(`Lnone`) and a 30-sample buffer spanning 0.29 s, the live estimate path
aborts the run (the source closes the connection and terminates the
process) instead of contributing a 0 estimate. -/
theorem C1_counterexample :
    calc_recent_power Lnone conf0 stC1 = .aborted ∧
    LiveOutcome.aborted ≠ LiveOutcome.est 0 :=
  ⟨by decide, by decide⟩

/-- Claim C1, amended.  The live estimate contributes 0 exactly when the
window is short (fewer than 30 samples, or a raw buffer spanning less than
0.2 s); when the window is long enough and the causal filter fails on it,
the run is aborted — the abort policy is not reserved for the offline
path. -/
theorem C1_live_filter_policy (L : List ℚ → Option (List ℚ))
    (conf : RunConfQ) (st : DataState) :
    (st.raw_x.length < SAMPLES_FOR_FILTER ∨
        lastD st.raw_x 0 - st.raw_x.headD 0 < 2/10 →
      calc_recent_power L conf st = .est 0) ∧
    (∀ inter, ¬(st.raw_x.length < SAMPLES_FOR_FILTER ∨
        lastD st.raw_x 0 - st.raw_x.headD 0 < 2/10) →
      interpolation ⟨st.raw_x.drop (st.raw_x.length - SAMPLES_FOR_FILTER),
                     st.raw_y.drop (st.raw_y.length - SAMPLES_FOR_FILTER)⟩
        = some inter →
      L inter.y = none →
      calc_recent_power L conf st = .aborted) := by
  constructor
  · intro h
    unfold calc_recent_power
    rw [if_pos h]
  · intro inter hg hi hL
    unfold calc_recent_power
    rw [if_neg hg]
    simp only [hi]
    simp [butter_lowpass_filter, hL]

/-- Witness for C1 (amended): a one-sample buffer yields the 0 estimate;
the 30-sample buffer with the failing filter yields the abort. -/
theorem C1_live_filter_policy_witness :
    calc_recent_power Lnone conf0 ⟨[0], [0], [0], [0], false, true⟩ = .est 0 ∧
    calc_recent_power Lnone conf0 stC1 = .aborted := by
  constructor
  · exact (C1_live_filter_policy Lnone conf0 _).1 (by decide)
  · exact (C1_live_filter_policy Lnone conf0 stC1).2
      ((interpolation ⟨stC1.raw_x.drop (stC1.raw_x.length - SAMPLES_FOR_FILTER),
        stC1.raw_y.drop (stC1.raw_y.length - SAMPLES_FOR_FILTER)⟩).getD ⟨[], []⟩)
      (by decide) rfl rfl

/-- Claim C8, counterexample.  On the very first start transition (the sample
`(t, f) = (5, 3)` crossing the start threshold), the recorded boundary
time is the constant 0, not the crossing sample's timestamp 5. -/
theorem C8_counterexample :
    (add_new Lid conf0 initState (5, 3)).map (fun st => st.new_bar_time)
      = some [0] ∧
    some [(0 : ℚ)] ≠ some [(5 : ℚ)] :=
  ⟨by decide, by decide⟩

/-- Claim C8, amended.  On both repetition-boundary transitions a new bar
slot is appended (initialised to 0, then immediately folded with the
current estimate); the hysteresis re-crossing records the crossing
sample's timestamp, but the initial start transition records the constant
0 instead. -/
theorem C8_boundary_transitions (L : List ℚ → Option (List ℚ))
    (conf : RunConfQ) (st : DataState) (x y : ℚ) (st' : DataState) :
    (st.run_started = false → st.descending_freq = false →
      MIN_FREQ_START < y → add_new L conf st (x, y) = some st' →
      st'.new_bar_time = st.new_bar_time ++ [0] ∧
      st'.bar_h.length = st.bar_h.length + 1) ∧
    (st.run_started = true → st.descending_freq = true →
      1 < y → add_new L conf st (x, y) = some st' →
      st'.new_bar_time = st.new_bar_time ++ [x] ∧
      st'.bar_h.length = st.bar_h.length + 1) := by
  constructor
  · intro hs hd hy h
    have hy9 : ¬ (y < 9/10) := by
      simp only [MIN_FREQ_START] at hy
      intro hcon
      linarith
    simp [add_new, hs, hy, add_started, hd, hy9] at h
    split at h
    · simp at h
    · simp only [Option.some.injEq] at h
      subst h
      refine ⟨by simp, ?_⟩
      simp [setLast_length]
  · intro hs hd hy h
    simp [add_new, hs, hy, add_started, hd] at h
    split at h
    · simp at h
    · simp only [Option.some.injEq] at h
      subst h
      refine ⟨by simp, ?_⟩
      simp [setLast_length]

/-- Witness for C8 (amended): the start transition at `(5, 3)` and a
hysteresis re-crossing at `(7, 3/2)`. -/
theorem C8_boundary_transitions_witness :
    ((add_new Lid conf0 initState (5, 3)).getD initState).new_bar_time
        = [] ++ [0] ∧
    ((add_new Lid conf0 ⟨[0], [1], [0], [0], true, true⟩ (7, 3/2)).getD
        initState).new_bar_time = [0] ++ [7] := by
  constructor
  · exact ((C8_boundary_transitions Lid conf0 initState 5 3
      ((add_new Lid conf0 initState (5, 3)).getD initState)).1
      rfl rfl (by decide) rfl).1
  · exact ((C8_boundary_transitions Lid conf0 ⟨[0], [1], [0], [0], true, true⟩
      7 (3/2)
      ((add_new Lid conf0 ⟨[0], [1], [0], [0], true, true⟩ (7, 3/2)).getD
        initState)).2 rfl rfl (by decide) (by decide)).1

lemma add_new_low_noop (L : List ℚ → Option (List ℚ)) (conf : RunConfQ)
    (st : DataState) (p : ℚ × ℚ) (hs : st.run_started = false)
    (hy : ¬(MIN_FREQ_START < p.2)) : add_new L conf st p = some st := by
  simp [add_new, hs, hy]

lemma head_append_single (l : List ℚ) (a : ℚ) (h : l ≠ []) :
    (l ++ [a]).head? = l.head? := by
  cases l with
  | nil => exact absurd rfl h
  | cons b r => rfl

lemma add_started_raw_fields (L : List ℚ → Option (List ℚ))
    (conf : RunConfQ) (st : DataState) (x y : ℚ) (st' : DataState)
    (h : add_started L conf st x y = some st') :
    st'.raw_x = st.raw_x ++ [x] ∧ st'.raw_y = st.raw_y ++ [y] ∧
    st'.run_started = st.run_started := by
  simp only [add_started] at h
  split at h
  · exact absurd h (by simp)
  · simp only [Option.some.injEq] at h
    subst h
    refine ⟨?_, ?_, ?_⟩ <;> (split <;> split <;> rfl)

lemma add_new_started_fields (L : List ℚ → Option (List ℚ))
    (conf : RunConfQ) (st : DataState) (p : ℚ × ℚ) (st' : DataState)
    (hs : st.run_started = true) (h : add_new L conf st p = some st') :
    st'.raw_x = st.raw_x ++ [p.1] ∧ st'.raw_y = st.raw_y ++ [p.2] ∧
    st'.run_started = true := by
  have h2 : add_started L conf st p.1 p.2 = some st' := by
    simpa [add_new, hs] using h
  obtain ⟨a, b, c⟩ := add_started_raw_fields L conf st p.1 p.2 st' h2
  exact ⟨a, b, c.trans hs⟩

lemma runPoints_head_preserved (L : List ℚ → Option (List ℚ))
    (conf : RunConfQ) :
    ∀ (tr : List (ℚ × ℚ)) (st st' : DataState), st.run_started = true →
      runPoints L conf st tr = some st' →
      st'.run_started = true ∧
      (st.raw_x ≠ [] → st'.raw_x.head? = st.raw_x.head?) ∧
      (st.raw_y ≠ [] → st'.raw_y.head? = st.raw_y.head?) := by
  intro tr
  induction tr with
  | nil =>
    intro st st' hs h
    simp only [runPoints, Option.some.injEq] at h
    subst h
    exact ⟨hs, fun _ => rfl, fun _ => rfl⟩
  | cons p ps ih =>
    intro st st' hs h
    simp only [runPoints] at h
    rcases ha : add_new L conf st p with _ | st1
    · rw [ha] at h
      simp at h
    · rw [ha] at h
      obtain ⟨hx, hy2, hs1⟩ := add_new_started_fields L conf st p st1 hs ha
      obtain ⟨hs2, hhx, hhy⟩ := ih st1 st' hs1 h
      refine ⟨hs2, ?_, ?_⟩
      · intro hne
        rw [hhx (by rw [hx]; simp), hx, head_append_single _ _ hne]
      · intro hne
        rw [hhy (by rw [hy2]; simp), hy2, head_append_single _ _ hne]

lemma add_new_start_from_empty (L : List ℚ → Option (List ℚ))
    (conf : RunConfQ) (p : ℚ × ℚ) (hy : MIN_FREQ_START < p.2) :
    add_new L conf initState p =
      some ⟨[p.1], [p.2], [0], [0], false, true⟩ := by
  have h9 : ¬(p.2 < 9/10) := by
    simp only [MIN_FREQ_START] at hy
    intro hcon
    linarith
  have hguard : ([p.1] : List ℚ).length < SAMPLES_FOR_FILTER ∨
      lastD [p.1] 0 - ([p.1] : List ℚ).headD 0 < 2/10 := by
    left
    simp [SAMPLES_FOR_FILTER]
  simp [add_new, initState, hy, add_started, h9, calc_recent_power, hguard,
    setLast, lastD]

/-- Claim C10.  Before the run has started, a sample whose frequency does
not exceed `MIN_FREQ_START` leaves the state entirely unchanged; hence,
running from the initial state, the first element of the raw buffers is
exactly the first sample whose frequency exceeded the start threshold. -/
theorem C10_prestart_frame :
    (∀ (L : List ℚ → Option (List ℚ)) (conf : RunConfQ) (st : DataState)
        (x y : ℚ), st.run_started = false → ¬(MIN_FREQ_START < y) →
      add_new L conf st (x, y) = some st) ∧
    (∀ (L : List ℚ → Option (List ℚ)) (conf : RunConfQ)
        (trace : List (ℚ × ℚ)) (st' : DataState),
      runPoints L conf initState trace = some st' →
      st'.raw_x.head? =
        ((trace.dropWhile (fun p => !decide (MIN_FREQ_START < p.2))).head?).map
          Prod.fst ∧
      st'.raw_y.head? =
        ((trace.dropWhile (fun p => !decide (MIN_FREQ_START < p.2))).head?).map
          Prod.snd) := by
  constructor
  · intro L conf st x y hs hy
    exact add_new_low_noop L conf st (x, y) hs hy
  · intro L conf trace
    induction trace with
    | nil =>
      intro st' h
      simp only [runPoints, Option.some.injEq] at h
      subst h
      simp [initState]
    | cons p ps ih =>
      intro st' h
      by_cases hp : MIN_FREQ_START < p.2
      · simp only [runPoints] at h
        rw [add_new_start_from_empty L conf p hp] at h
        obtain ⟨_, hhx, hhy⟩ := runPoints_head_preserved L conf ps
          ⟨[p.1], [p.2], [0], [0], false, true⟩ st' rfl h
        have hdw : List.dropWhile (fun q => !decide (MIN_FREQ_START < q.2))
            (p :: ps) = p :: ps := by
          rw [List.dropWhile_cons]
          simp [hp]
        rw [hdw]
        constructor
        · rw [hhx (by simp)]
          rfl
        · rw [hhy (by simp)]
          rfl
      · simp only [runPoints] at h
        rw [add_new_low_noop L conf initState p rfl hp] at h
        have hdw : List.dropWhile (fun q => !decide (MIN_FREQ_START < q.2))
            (p :: ps) =
            List.dropWhile (fun q => !decide (MIN_FREQ_START < q.2)) ps := by
          rw [List.dropWhile_cons]
          simp [hp]
        rw [hdw]
        exact ih st' h

/-- Witness for C10: a pre-start sample at frequency 1 is a no-op, and on
the trace `[(1,1), (2,3), (3,1)]` the first buffered sample is `(2,3)`,
the first one to exceed the threshold. -/
theorem C10_prestart_frame_witness :
    add_new Lid conf0 initState (4, 1) = some initState ∧
    ((runPoints Lid conf0 initState [(1, 1), (2, 3), (3, 1)]).getD
      initState).raw_x.head? = some 2 := by
  constructor
  · exact C10_prestart_frame.1 Lid conf0 initState 4 1 rfl (by decide)
  · exact ((C10_prestart_frame.2 Lid conf0 [(1, 1), (2, 3), (3, 1)]
      ((runPoints Lid conf0 initState [(1, 1), (2, 3), (3, 1)]).getD
        initState) (by decide)).1).trans (by decide)

/-- Claim C5, counterexample.  A single-point input does not fail (it yields
a single-point output), and on the two-point input `x = [0, 0.0015]` the
output grid's last point `0.002` lies strictly beyond `x[-1]`: the
resampler does extrapolate past the original domain. -/
theorem C5_counterexample :
    interpolation dC5one = some ⟨[1], [5]⟩ ∧
    (interpolation dC5frac).map (fun out => out.x)
      = some [0, 1/1000, 1/500] ∧
    dC5frac.x.getLast?.getD 0 < 1/500 :=
  ⟨by decide, by decide, by decide⟩

/-- Claim C5, amended.  For every DataSet with at least 2 points, strictly
increasing x and a non-empty y, the resampler succeeds; its output grid
starts at `x[0]`, has constant step `1/Fs`, is strictly increasing, its
last point lies in `[x[-1], x[-1] + 1/Fs)` (it can overshoot `x[-1]` by
less than one step), and the output values are the clamped linear
interpolations of the input at the grid points.  With an empty x it
fails. -/
theorem C5_resampler_grid (d : DataSetQ) (h2 : 2 ≤ d.x.length)
    (hy : d.y ≠ []) (hmono : d.x.Chain' (· < ·)) :
    ∃ out, interpolation d = some out ∧
      out.x.head? = d.x.head? ∧
      out.x.Chain' (fun a b => b = a + 1/SAMPLING_FREQ) ∧
      out.x.Chain' (· < ·) ∧
      (∀ xl, d.x.getLast? = some xl →
        ∃ gl, out.x.getLast? = some gl ∧ xl ≤ gl ∧ gl < xl + 1/SAMPLING_FREQ) ∧
      out.y = out.x.map (npInterp d.x d.y) ∧
      interpolation ⟨[], d.y⟩ = none := by
  obtain ⟨dx, dy⟩ := d
  cases dx with
  | nil => simp at h2
  | cons x0 xr =>
    cases dy with
    | nil => exact absurd rfl hy
    | cons y0 yr =>
      have hs : (0 : ℚ) < 1/SAMPLING_FREQ := by norm_num [SAMPLING_FREQ]
      have hxrne : xr ≠ [] := by
        cases xr with
        | nil => simp at h2
        | cons a r => simp
      have hne : (x0 :: xr : List ℚ) ≠ [] := by simp
      set xlast := (x0 :: xr).getLast hne with hxlast
      have hlast? : (x0 :: xr).getLast? = some xlast :=
        List.getLast?_eq_getLast_of_ne_nil hne
      have hmem : xlast ∈ xr := by
        rw [hxlast, List.getLast_cons hxrne]
        exact List.getLast_mem hxrne
      have hx0lt : x0 < xlast :=
        (List.pairwise_cons.mp (List.chain'_iff_pairwise.mp hmono)).1 xlast hmem
      have hs0 : (1/SAMPLING_FREQ : ℚ) ≠ 0 := hs.ne'
      set c : ℤ := ⌈(xlast - x0) / (1/SAMPLING_FREQ)⌉ with hc
      have hcpos : 0 < c :=
        Int.ceil_pos.mpr (div_pos (by linarith) hs)
      have harg : (xlast + 1/SAMPLING_FREQ - x0) / (1/SAMPLING_FREQ)
          = (xlast - x0) / (1/SAMPLING_FREQ) + 1 := by
        rw [show xlast + 1/SAMPLING_FREQ - x0
            = (xlast - x0) + 1/SAMPLING_FREQ by ring, add_div, div_self hs0]
      have hceil : ⌈(xlast + 1/SAMPLING_FREQ - x0) / (1/SAMPLING_FREQ)⌉
          = c + 1 := by
        rw [harg, Int.ceil_add_one, hc]
      have hn : ⌈(xlast + 1/SAMPLING_FREQ - x0) / (1/SAMPLING_FREQ)⌉.toNat
          = c.toNat + 1 := by
        rw [hceil]
        omega
      have hgrid : npArange x0 (xlast + 1/SAMPLING_FREQ) (1/SAMPLING_FREQ)
          = (List.range (c.toNat + 1)).map
              (fun i : ℕ => x0 + (i : ℚ) * (1/SAMPLING_FREQ)) := by
        rw [npArange, hn]
      have hout : interpolation ⟨x0 :: xr, y0 :: yr⟩ =
          some ⟨npArange x0 (xlast + 1/SAMPLING_FREQ) (1/SAMPLING_FREQ),
                (npArange x0 (xlast + 1/SAMPLING_FREQ)
                  (1/SAMPLING_FREQ)).map (npInterp (x0 :: xr) (y0 :: yr))⟩ := by
        simp [interpolation, hlast?]
      set g : List ℚ := (List.range (c.toNat + 1)).map
        (fun i : ℕ => x0 + (i : ℚ) * (1/SAMPLING_FREQ)) with hg
      have hglen : g.length = c.toNat + 1 := by
        simp [hg]
      have hgne : g ≠ [] := by
        intro hcon
        have := congrArg List.length hcon
        simp [hglen] at this
      have hget : ∀ (i : ℕ) (hi : i < g.length),
          g.get ⟨i, hi⟩ = x0 + (i : ℚ) * (1/SAMPLING_FREQ) := by
        intro i hi
        simp [hg]
      have hhead : g.head? = some x0 := by
        rw [hg]
        rw [List.range_succ_eq_map]
        simp
      have hchain : g.Chain' (fun a b => b = a + 1/SAMPLING_FREQ) := by
        rw [List.chain'_iff_get]
        intro i hi
        rw [hget i (by omega), hget (i+1) (by omega)]
        push_cast
        ring
      have hchainlt : g.Chain' (· < ·) := by
        refine hchain.imp ?_
        intro a b hab
        rw [hab]
        linarith
      have hglast : g.getLast? = some (x0 + (c.toNat : ℚ) * (1/SAMPLING_FREQ)) := by
        rw [List.getLast?_eq_getLast_of_ne_nil hgne, List.getLast_eq_get]
        rw [hget (g.length - 1) (by omega)]
        rw [hglen]
        simp
      have hcQ : ((c.toNat : ℚ)) = (c : ℚ) := by
        have := Int.toNat_of_nonneg hcpos.le
        exact_mod_cast congrArg (fun z : ℤ => (z : ℚ)) this
      have hub : (xlast - x0) / (1/SAMPLING_FREQ) ≤ (c : ℚ) := Int.le_ceil _
      have hlb : (c : ℚ) < (xlast - x0) / (1/SAMPLING_FREQ) + 1 :=
        Int.ceil_lt_add_one _
      have hgl_ge : xlast ≤ x0 + (c.toNat : ℚ) * (1/SAMPLING_FREQ) := by
        rw [hcQ]
        have := (div_le_iff hs).mp hub
        linarith
      have hgl_lt : x0 + (c.toNat : ℚ) * (1/SAMPLING_FREQ)
          < xlast + 1/SAMPLING_FREQ := by
        rw [hcQ]
        have h1 : (c : ℚ) * (1/SAMPLING_FREQ)
            < ((xlast - x0) / (1/SAMPLING_FREQ) + 1) * (1/SAMPLING_FREQ) :=
          mul_lt_mul_of_pos_right hlb hs
        rw [add_mul, div_mul_cancel₀ _ hs0, one_mul] at h1
        linarith
      refine ⟨⟨npArange x0 (xlast + 1/SAMPLING_FREQ) (1/SAMPLING_FREQ),
              (npArange x0 (xlast + 1/SAMPLING_FREQ)
                (1/SAMPLING_FREQ)).map (npInterp (x0 :: xr) (y0 :: yr))⟩,
        hout, ?_, ?_, ?_, ?_, rfl, rfl⟩
      · dsimp only
        rw [hgrid, hhead]
        rfl
      · dsimp only
        rw [hgrid]
        exact hchain
      · dsimp only
        rw [hgrid]
        exact hchainlt
      · intro xl hxl
        rw [hlast?] at hxl
        injection hxl with hxl
        subst hxl
        refine ⟨x0 + (c.toNat : ℚ) * (1/SAMPLING_FREQ), ?_, hgl_ge, hgl_lt⟩
        dsimp only
        rw [hgrid]
        exact hglast

/-- Witness for C5 (amended) on the two-point input `x=[0, 0.01]`. -/
theorem C5_resampler_grid_witness :
    ∃ out, interpolation dC5ok = some out ∧
      out.x.head? = dC5ok.x.head? ∧
      out.x.Chain' (fun a b => b = a + 1/SAMPLING_FREQ) ∧
      out.x.Chain' (· < ·) ∧
      (∀ xl, dC5ok.x.getLast? = some xl →
        ∃ gl, out.x.getLast? = some gl ∧ xl ≤ gl ∧
          gl < xl + 1/SAMPLING_FREQ) ∧
      out.y = out.x.map (npInterp dC5ok.x dC5ok.y) ∧
      interpolation ⟨[], dC5ok.y⟩ = none :=
  C5_resampler_grid dC5ok (by decide) (by decide)
    (by simp [dC5ok, List.chain'_cons])

lemma get?_zip_tail {α : Type} (l : List α) (k : ℕ) (a b : α)
    (h1 : l.get? k = some a) (h2 : l.get? (k+1) = some b) :
    (l.zip l.tail).get? k = some (a, b) := by
  induction l generalizing k with
  | nil => simp at h1
  | cons x r ih =>
    cases r with
    | nil =>
      cases k with
      | zero => simp at h2
      | succ k2 => simp at h2
    | cons y r2 =>
      cases k with
      | zero =>
        simp only [List.get?_cons_zero, Option.some.injEq] at h1
        simp only [List.get?_cons_succ, List.get?_cons_zero,
          Option.some.injEq] at h2
        subst h1
        subst h2
        rfl
      | succ k2 =>
        simp only [List.get?_cons_succ] at h1 h2
        exact ih k2 h1 h2

/-- Claim C7.  For each pair of consecutive mapped boundary positions
`(i, j)` with `i < j`, the refined cut appended by `calc_stats` is
`middle + argmin(y[middle:j])` with `middle = i + (j-i)/2`; the boundary
list (starting with the prepended 0) then has its first `START_RUNS = 3`
entries discarded and keeps at most `COUNTED_RUNS + 1 = 7` boundaries,
i.e. at most 6 repetitions.  (`i < j` matches the claim's ordering of the
pair; on `i ≥ j` Python would raise on the empty argmin.) -/
theorem C7_segment_refinement (fd : DataSetQ) (times : List ℚ) (k i j : ℕ)
    (h1 : (new_bar_positions fd times).get? k = some i)
    (h2 : (new_bar_positions fd times).get? (k+1) = some j)
    (hij : i < j) :
    (exact_new_segment fd times).get? (k+1) =
      some (i + (j - i) / 2 +
        argminIdx (pySlice fd.y (i + (j - i) / 2) j)) ∧
    kept_segments fd times =
      ((exact_new_segment fd times).drop 3).take 7 ∧
    (kept_segments fd times).length ≤ COUNTED_RUNS + 1 := by
  refine ⟨?_, rfl, ?_⟩
  · have hz := get?_zip_tail (new_bar_positions fd times) k i j h1 h2
    simp only [exact_new_segment, List.get?_cons_succ, List.get?_map, hz,
      Option.map_some']
  · exact List.length_take_le _ _

/-- Witness for C7 at the C2 run's first mapped pair `(1, 3)`. -/
theorem C7_segment_refinement_witness :
    (exact_new_segment fdC2 timesC2).get? 1 =
      some (1 + (3 - 1) / 2 +
        argminIdx (pySlice fdC2.y (1 + (3 - 1) / 2) 3)) ∧
    kept_segments fdC2 timesC2 =
      ((exact_new_segment fdC2 timesC2).drop 3).take 7 ∧
    (kept_segments fdC2 timesC2).length ≤ COUNTED_RUNS + 1 :=
  C7_segment_refinement fdC2 timesC2 0 1 3 (by decide) (by decide)
    (by decide)

lemma mapM_get? {α β : Type} (f : α → Option β) :
    ∀ (l : List α) (res : List β), l.mapM f = some res →
      ∀ (k : ℕ) (a : α), l.get? k = some a → res.get? k = f a := by
  intro l
  induction l with
  | nil =>
    intro res h k a ha
    simp at ha
  | cons x r ih =>
    intro res h k a ha
    rw [List.mapM_cons] at h
    cases hfx : f x with
    | none =>
      rw [hfx] at h
      simp at h
    | some y =>
      rw [hfx] at h
      cases hrest : r.mapM f with
      | none =>
        rw [hrest] at h
        simp at h
      | some ys =>
        rw [hrest] at h
        simp only [Option.pure_def, Option.bind_eq_bind, Option.some_bind,
          Option.some.injEq] at h
        subst h
        cases k with
        | zero =>
          simp only [List.get?_cons_zero, Option.some.injEq] at ha
          subst ha
          simp [hfx]
        | succ k2 =>
          simp only [List.get?_cons_succ] at ha ⊢
          exact ih ys hrest k2 a ha

/-- Claim C2, counterexample.  A concrete offline run (filtered frequency
`fdC2`, boundary times `timesC2`, load 1, weight 0) whose single kept
repetition spans grid indices `[7, 12)`: the split index the code uses is
`7 + argmax(frequency[7:12]) = 9`, while the index of maximum power over
the repetition is `7 + 3 = 10` — the split is the frequency argmax, not
the power argmax. -/
theorem C2_counterexample :
    kept_segments fdC2 timesC2 = [7, 12] ∧
    argmaxIdx (pySlice fdC2.y 7 12) = 2 ∧
    argmaxIdx (pySlice (power_series confLoad fdC2) 7 12) = 3 ∧
    (2 : ℕ) ≠ 3 := by
  refine ⟨by decide, by decide, by decide, by decide⟩

/-- Claim C2, amended.  In the offline statistics, the k-th result is the
statistics of the k-th kept pair `(i, j)`, and the split index between
the concentric phase `[i, m)` and eccentric phase `[m, j)` is
`m = i + argmax` of the **filtered frequency** (not the power) over
`[i, j)`: the four power statistics of the result are the mean/max of the
power series over the two frequency-argmax-split phases. -/
theorem C2_phase_split (conf : RunConfQ) (fd : DataSetQ) (times : List ℚ)
    (res : List RunDataQ) (k i j : ℕ)
    (hres : calc_results conf fd times = some res)
    (hi : (kept_segments fd times).get? k = some i)
    (hj : (kept_segments fd times).get? (k+1) = some j) :
    res.get? k = rep_stats conf fd i j ∧
    (∀ r, rep_stats conf fd i j = some r →
      npMeanQ (pySlice (power_series conf fd) i
        (argmaxIdx (pySlice fd.y i j) + i)) = some r.p_con_mean ∧
      npMeanQ (pySlice (power_series conf fd)
        (argmaxIdx (pySlice fd.y i j) + i) j) = some r.p_ecc_mean ∧
      npMaxQ (pySlice (power_series conf fd) i
        (argmaxIdx (pySlice fd.y i j) + i)) = some r.p_con_max ∧
      npMaxQ (pySlice (power_series conf fd)
        (argmaxIdx (pySlice fd.y i j) + i) j) = some r.p_ecc_max) := by
  constructor
  · exact mapM_get? _ _ res hres k (i, j)
      (get?_zip_tail (kept_segments fd times) k i j hi hj)
  · intro r hr
    simp only [rep_stats, Option.pure_def, Option.bind_eq_bind,
      Option.bind_eq_some, Option.some.injEq] at hr
    obtain ⟨v1, h1, v2, h2, v3, h3, v4, h4, v5, h5, v6, h6, v7, h7, v8, h8,
      v9, h9, v10, h10, v11, h11, v12, h12, heq⟩ := hr
    subst heq
    exact ⟨h11, h12, h9, h10⟩

/-- Witness for C2 (amended) on the concrete run `fdC2`/`timesC2`. -/
theorem C2_phase_split_witness :
    ((calc_results confLoad fdC2 timesC2).getD []).get? 0
        = rep_stats confLoad fdC2 7 12 ∧
    npMeanQ (pySlice (power_series confLoad fdC2) 7
        (argmaxIdx (pySlice fdC2.y 7 12) + 7))
      = some (((rep_stats confLoad fdC2 7 12).getD
          ⟨0, 0, 0, 0, 0, 0, 0, 0, 0, 0, 0, 0⟩).p_con_mean) := by
  have h := C2_phase_split confLoad fdC2 timesC2
    ((calc_results confLoad fdC2 timesC2).getD []) 0 7 12 rfl
    (by decide) (by decide)
  exact ⟨h.1, (h.2 ((rep_stats confLoad fdC2 7 12).getD
    ⟨0, 0, 0, 0, 0, 0, 0, 0, 0, 0, 0, 0⟩) rfl).1⟩

/-- Claim C6, counterexample.  With the concrete causal forward pass `Lfir`
(the FIR filter `y[n] = x[n] + x[n-1]`, a stand-in for the Butterworth
`lfilter` pass, whose float coefficients are not exactly representable),
the live estimate computed by the code — which applies the filter
forward and then again backward (`filtfilt`) — differs from the estimate
of the spec's causal, forward-only pipeline on the 31-sample state
`stC6`: the live filter is zero-phase, not causal. -/
theorem C6_counterexample :
    calc_recent_power Lfir confLoad stC6 ≠
      calc_recent_power_causal_spec Lfir confLoad stC6 := by
  decide

/-- Claim C6, amended.  On every accepted sample with a long-enough
window, the live power estimate is computed from only the most recent
`SAMPLES_FOR_FILTER = 30` raw samples by resampling that window, applying
the same zero-phase forward-backward low-pass filter used offline (one
forward pass `L`, then `L` again on the reversed signal, reversed back),
running the physics model, and taking the value at the middle of the
filtered window. -/
theorem C6_live_pipeline (L : List ℚ → Option (List ℚ)) (conf : RunConfQ)
    (st : DataState)
    (hg : ¬(st.raw_x.length < SAMPLES_FOR_FILTER ∨
        lastD st.raw_x 0 - st.raw_x.headD 0 < 2/10))
    (inter : DataSetQ)
    (hi : interpolation ⟨st.raw_x.drop (st.raw_x.length - SAMPLES_FOR_FILTER),
          st.raw_y.drop (st.raw_y.length - SAMPLES_FOR_FILTER)⟩ = some inter)
    (y1 y2 : List ℚ)
    (h1 : L inter.y = some y1) (h2 : L y1.reverse = some y2) :
    calc_recent_power L conf st =
      .est ((power_series conf ⟨inter.x, y2.reverse⟩).getD
        ((power_series conf ⟨inter.x, y2.reverse⟩).length / 2) 0) := by
  unfold calc_recent_power
  rw [if_neg hg]
  simp only [hi]
  simp [butter_lowpass_filter, h1, h2]

/-- Witness for C6 (amended) at the state `stC6` with the pass `Lfir`. -/
theorem C6_live_pipeline_witness :
    calc_recent_power Lfir confLoad stC6 =
      .est ((power_series confLoad
        ⟨((interpolation ⟨stC6.raw_x.drop (stC6.raw_x.length - SAMPLES_FOR_FILTER),
            stC6.raw_y.drop (stC6.raw_y.length - SAMPLES_FOR_FILTER)⟩).getD
              ⟨[], []⟩).x,
          ((Lfir (((Lfir ((interpolation
            ⟨stC6.raw_x.drop (stC6.raw_x.length - SAMPLES_FOR_FILTER),
             stC6.raw_y.drop (stC6.raw_y.length - SAMPLES_FOR_FILTER)⟩).getD
              ⟨[], []⟩).y).getD []).reverse)).getD []).reverse⟩).getD
        ((power_series confLoad
          ⟨((interpolation ⟨stC6.raw_x.drop (stC6.raw_x.length - SAMPLES_FOR_FILTER),
              stC6.raw_y.drop (stC6.raw_y.length - SAMPLES_FOR_FILTER)⟩).getD
                ⟨[], []⟩).x,
            ((Lfir (((Lfir ((interpolation
              ⟨stC6.raw_x.drop (stC6.raw_x.length - SAMPLES_FOR_FILTER),
               stC6.raw_y.drop (stC6.raw_y.length - SAMPLES_FOR_FILTER)⟩).getD
                ⟨[], []⟩).y).getD []).reverse)).getD []).reverse⟩).length / 2) 0) :=
  C6_live_pipeline Lfir confLoad stC6 (by decide)
    ((interpolation ⟨stC6.raw_x.drop (stC6.raw_x.length - SAMPLES_FOR_FILTER),
      stC6.raw_y.drop (stC6.raw_y.length - SAMPLES_FOR_FILTER)⟩).getD ⟨[], []⟩)
    rfl
    ((Lfir ((interpolation
      ⟨stC6.raw_x.drop (stC6.raw_x.length - SAMPLES_FOR_FILTER),
       stC6.raw_y.drop (stC6.raw_y.length - SAMPLES_FOR_FILTER)⟩).getD
        ⟨[], []⟩).y).getD [])
    ((Lfir (((Lfir ((interpolation
      ⟨stC6.raw_x.drop (stC6.raw_x.length - SAMPLES_FOR_FILTER),
       stC6.raw_y.drop (stC6.raw_y.length - SAMPLES_FOR_FILTER)⟩).getD
        ⟨[], []⟩).y).getD []).reverse)).getD [])
    rfl rfl

lemma ite_ratio_eq (gm cand : ℚ) (hpos : 0 < gm) :
    (if cand / gm < 9/10 then (some gm : Option ℚ) else some cand)
      = (if cand < 9/10 * gm then some gm else some cand) := by
  by_cases hc : cand / gm < 9/10
  · rw [if_pos hc, if_pos ((div_lt_iff hpos).mp hc)]
  · rw [if_neg hc, if_neg (fun hcon => hc ((div_lt_iff hpos).mpr hcon))]

lemma foldl_max_spec (s0 : ℚ) (rest : List ℚ) :
    List.foldl max s0 rest ∈ s0 :: rest ∧
    ∀ x ∈ s0 :: rest, x ≤ List.foldl max s0 rest := by
  induction rest generalizing s0 with
  | nil => simp
  | cons b r ih =>
    obtain ⟨hmem, hle⟩ := ih (max s0 b)
    constructor
    · show List.foldl max (max s0 b) r ∈ s0 :: b :: r
      rcases List.mem_cons.mp hmem with hm | hm
      · rcases max_choice s0 b with hc | hc
        · rw [hm, hc]
          exact List.mem_cons_self _ _
        · rw [hm, hc]
          exact List.mem_cons_of_mem _ (List.mem_cons_self _ _)
      · exact List.mem_cons_of_mem _ (List.mem_cons_of_mem _ hm)
    · intro x hx
      rcases List.mem_cons.mp hx with hm | hm
      · subst hm
        exact le_trans (le_max_left x b) (hle _ (List.mem_cons_self _ _))
      · rcases List.mem_cons.mp hm with hm2 | hm2
        · subst hm2
          exact le_trans (le_max_right s0 x) (hle _ (List.mem_cons_self _ _))
        · exact hle x (List.mem_cons_of_mem _ hm2)

/-- Claim C3, counterexample.  On the all-negative segment
`[-10, -1, -10, -5, -10]` the code returns the last relative maximum -5
(since the ratio (-5)/(-1) = 5 is not below 0.9), while the claim's rule
"chosen < 90% of the global maximum" (-5 < -0.9) would fall back to the
global maximum -1. -/
theorem C3_counterexample :
    find_second_peak segC3 = some (-5) ∧
    claim_peak segC3 = some (-1) ∧
    ((-5 : ℚ)) ≠ (-1) :=
  ⟨by decide, by decide, by decide⟩

/-- Claim C3, amended.  When the global maximum is positive, the peak
picker behaves exactly as the claim describes (the source's ratio test
`chosen/max < 0.9` coincides with `chosen < 0.9*max`); and on every
strictly unimodal array it returns the global maximum regardless of
sign. -/
theorem C3_peak_picker :
    (∀ l : List ℚ, 0 < (npMaxQ l).getD 0 →
      find_second_peak l = claim_peak l) ∧
    (∀ l : List ℚ, StrictlyUnimodal l → find_second_peak l = npMaxQ l) := by
  constructor
  · intro l hpos
    cases l with
    | nil => simp [npMaxQ] at hpos
    | cons s0 rest =>
      have hpos2 : 0 < List.foldl max s0 rest := by
        simpa [npMaxQ] using hpos
      cases hemp : (relMaxIndices (s0 :: rest)).isEmpty with
      | true => simp [find_second_peak, claim_peak, hemp]
      | false =>
        simp only [find_second_peak, claim_peak, hemp, Bool.false_eq_true,
          if_false]
        exact ite_ratio_eq _ _ hpos2
  · intro l hsu
    obtain ⟨kk, hklen, hup, hdown⟩ := hsu
    cases l with
    | nil => simp at hklen
    | cons s0 rest =>
      have chain_up : ∀ b, b ≤ kk → ∀ a, a ≤ b →
          (s0 :: rest).getD a 0 ≤ (s0 :: rest).getD b 0 := by
        intro b
        induction b with
        | zero =>
          intro _ a ha
          have ha0 : a = 0 := Nat.le_zero.mp ha
          rw [ha0]
        | succ b2 ih =>
          intro hb a ha
          rcases Nat.eq_or_lt_of_le ha with h | h
          · rw [h]
          · have h1 : a ≤ b2 := by omega
            have h2 : b2 ≤ kk := by omega
            exact le_trans (ih h2 a h1) (le_of_lt (hup b2 (by omega)))
      have chain_down : ∀ a, kk ≤ a → a < (s0 :: rest).length →
          (s0 :: rest).getD a 0 ≤ (s0 :: rest).getD kk 0 := by
        intro a
        induction a with
        | zero =>
          intro h1 _
          have hk0 : kk = 0 := by omega
          rw [hk0]
        | succ a2 ih =>
          intro h1 h2
          rcases Nat.eq_or_lt_of_le h1 with h | h
          · rw [← h]
          · have hk2 : kk ≤ a2 := by omega
            have hlt := hdown a2 (by omega) hk2
            exact le_trans (le_of_lt hlt) (ih hk2 (by omega))
      have hmax_le : ∀ i, i < (s0 :: rest).length →
          (s0 :: rest).getD i 0 ≤ (s0 :: rest).getD kk 0 := by
        intro i hi
        rcases le_or_lt i kk with h | h
        · exact chain_up kk (le_refl kk) i h
        · exact chain_down i (le_of_lt h) hi
      obtain ⟨hfm, hfle⟩ := foldl_max_spec s0 rest
      have hM_eq : List.foldl max s0 rest = (s0 :: rest).getD kk 0 := by
        apply le_antisymm
        · obtain ⟨n, hn⟩ := List.mem_iff_get.mp hfm
          have hgd : (s0 :: rest).getD (n : ℕ) 0 = List.foldl max s0 rest := by
            rw [List.getD_eq_get _ 0 n.isLt]
            exact hn
          rw [← hgd]
          exact hmax_le n n.isLt
        · have hkmem : (s0 :: rest).getD kk 0 ∈ s0 :: rest := by
            rw [List.getD_eq_get _ 0 hklen]
            exact List.get_mem _ _ _
          exact hfle _ hkmem
      have hrel : ∀ i ∈ relMaxIndices (s0 :: rest), i = kk := by
        intro i hi
        simp only [relMaxIndices, List.mem_filter, List.mem_range,
          Bool.and_eq_true, decide_eq_true_eq] at hi
        obtain ⟨hilen, ⟨⟨h0i, hi1⟩, hlft⟩, hrgt⟩ := hi
        rcases lt_trichotomy i kk with h | h | h
        · exact absurd (hup i h) (lt_asymm hrgt)
        · exact h
        · have him : i - 1 + 1 = i := by omega
          have hdn := hdown (i-1) (by omega) (by omega)
          rw [him] at hdn
          exact absurd hlft (lt_asymm hdn)
      have hnodup : (relMaxIndices (s0 :: rest)).Nodup :=
        List.Nodup.filter _ (List.nodup_range _)
      cases hpm : relMaxIndices (s0 :: rest) with
      | nil => simp [find_second_peak, npMaxQ, hpm]
      | cons p ps =>
        have hp : p = kk := hrel p (by rw [hpm]; exact List.mem_cons_self _ _)
        have hps : ps = [] := by
          cases ps with
          | nil => rfl
          | cons q qs =>
            have hq : q = kk := hrel q
              (by rw [hpm]; exact List.mem_cons_of_mem _ (List.mem_cons_self _ _))
            rw [hpm] at hnodup
            have hpq : p ∉ q :: qs := (List.nodup_cons.mp hnodup).1
            exact absurd (List.mem_cons_self q qs)
              (by rw [← (hp.trans hq.symm)] at *; exact fun hc => hpq hc)
        subst hps
        rw [hp] at hpm
        simp [find_second_peak, npMaxQ, hpm, hM_eq]

/-- Witness for C3 (amended): the positive-maximum segment
`[0, 10, 0, 2, 0]` agrees with the claim's description, and the strictly
unimodal segment `[1, 3, 7, 4, 2]` yields its global maximum. -/
theorem C3_peak_picker_witness :
    find_second_peak segC3pos = claim_peak segC3pos ∧
    find_second_peak segC3uni = npMaxQ segC3uni := by
  constructor
  · exact C3_peak_picker.1 segC3pos (by decide)
  · exact C3_peak_picker.2 segC3uni ⟨2, by decide, by decide, by decide⟩

lemma getD_setLast_of_lt (l : List ℚ) (v : ℚ) (k : ℕ)
    (hk : k + 1 < l.length) : (setLast l v).getD k 0 = l.getD k 0 := by
  induction l generalizing k with
  | nil => simp at hk
  | cons a r ih =>
    cases r with
    | nil => simp at hk
    | cons b r2 =>
      cases k with
      | zero => rfl
      | succ k2 =>
        simp only [setLast, List.getD_cons_succ]
        exact ih k2 (by simpa using hk)

lemma spec_cycle_count_cons (b : Bool) (y : ℚ) (ys : List ℚ) :
    spec_cycle_count b (y :: ys) =
      (if boundary_step b y then 1 else 0)
        + spec_cycle_count (desc_step b y) ys := by
  cases b with
  | true =>
    by_cases h1 : (1 : ℚ) < y
    · simp [spec_cycle_count, boundary_step, desc_step, h1]
    · simp [spec_cycle_count, boundary_step, desc_step, h1]
  | false =>
    by_cases h9 : y < 9/10
    · have h1 : ¬((1 : ℚ) < y) := by linarith
      simp [spec_cycle_count, boundary_step, desc_step, h1, h9]
    · by_cases h1 : (1 : ℚ) < y
      · simp [spec_cycle_count, boundary_step, desc_step, h1, h9]
      · simp [spec_cycle_count, boundary_step, desc_step, h1, h9]

lemma add_started_count (L : List ℚ → Option (List ℚ)) (conf : RunConfQ)
    (st : DataState) (x y : ℚ) (st' : DataState)
    (h : add_started L conf st x y = some st') :
    st'.run_started = st.run_started ∧
    st'.descending_freq = desc_step st.descending_freq y ∧
    st'.bar_h.length = st.bar_h.length
      + (if boundary_step st.descending_freq y then 1 else 0) ∧
    st'.new_bar_time.length = st.new_bar_time.length
      + (if boundary_step st.descending_freq y then 1 else 0) ∧
    (∀ k, k < st.bar_h.length → st.bar_h.getD k 0 ≤ st'.bar_h.getD k 0) := by
  cases hd : st.descending_freq with
  | true =>
    by_cases h1 : (1 : ℚ) < y
    · have h9 : ¬(y < 9/10) := by linarith
      simp only [add_started, hd, Bool.true_eq_false, false_and, if_false,
        if_true, true_and, gt_iff_lt, h1] at h
      split at h
      · exact absurd h (by simp)
      · simp only [Option.some.injEq] at h
        subst h
        refine ⟨rfl, ?_, ?_, ?_, ?_⟩
        · simp [desc_step, boundary_step, hd, h1]
        · simp [setLast_length, boundary_step, hd, h1]
        · simp [boundary_step, hd, h1]
        · intro k hk
          have hk2 : k + 1 < (st.bar_h ++ [0]).length := by
            simp
            omega
          rw [getD_setLast_of_lt _ _ k hk2, List.getD_append _ _ _ _ hk]
    · simp only [add_started, hd, Bool.true_eq_false, false_and, if_false,
        true_and, gt_iff_lt, h1, if_true] at h
      split at h
      · exact absurd h (by simp)
      · simp only [Option.some.injEq] at h
        subst h
        refine ⟨rfl, ?_, ?_, ?_, ?_⟩
        · simp [desc_step, boundary_step, hd, h1]
        · simp [setLast_length, boundary_step, hd, h1]
        · simp [boundary_step, hd, h1]
        · intro k hk
          exact getD_setLast_max st.bar_h _ k hk
  | false =>
    by_cases h9 : y < 9/10
    · have h1 : ¬((1 : ℚ) < y) := by linarith
      simp only [add_started, hd, gt_iff_lt, h1, h9, and_true, and_false,
        if_true, if_false, Bool.true_eq_false, true_and, false_and] at h
      split at h
      · exact absurd h (by simp)
      · simp only [Option.some.injEq] at h
        subst h
        refine ⟨rfl, ?_, ?_, ?_, ?_⟩
        · simp [desc_step, boundary_step, hd, h1, h9]
        · simp [setLast_length, boundary_step, hd, h1]
        · simp [boundary_step, hd, h1]
        · intro k hk
          exact getD_setLast_max st.bar_h _ k hk
    · simp only [add_started, hd, gt_iff_lt, h9, and_false, if_false,
        Bool.false_eq_true, false_and, true_and] at h
      split at h
      · exact absurd h (by simp)
      · simp only [Option.some.injEq] at h
        subst h
        refine ⟨rfl, ?_, ?_, ?_, ?_⟩
        · simp [desc_step, boundary_step, hd, h9]
        · simp [setLast_length, boundary_step, hd, h9]
        · simp [boundary_step, hd, h9]
        · intro k hk
          exact getD_setLast_max st.bar_h _ k hk

lemma runPoints_started_count (L : List ℚ → Option (List ℚ))
    (conf : RunConfQ) :
    ∀ (tr : List (ℚ × ℚ)) (st st' : DataState), st.run_started = true →
      runPoints L conf st tr = some st' →
      st'.run_started = true ∧
      st'.bar_h.length = st.bar_h.length
        + spec_cycle_count st.descending_freq (tr.map Prod.snd) ∧
      st'.new_bar_time.length = st.new_bar_time.length
        + spec_cycle_count st.descending_freq (tr.map Prod.snd) := by
  intro tr
  induction tr with
  | nil =>
    intro st st' hs h
    simp only [runPoints, Option.some.injEq] at h
    subst h
    simp [spec_cycle_count, hs]
  | cons p ps ih =>
    intro st st' hs h
    simp only [runPoints] at h
    rcases ha : add_new L conf st p with _ | st1
    · rw [ha] at h
      simp at h
    · rw [ha] at h
      have ha2 : add_started L conf st p.1 p.2 = some st1 := by
        simpa [add_new, hs] using ha
      obtain ⟨hrs, hdesc, hblen, htlen, _⟩ :=
        add_started_count L conf st p.1 p.2 st1 ha2
      obtain ⟨ihs, ihb, iht⟩ := ih st1 st' (hrs.trans hs) h
      refine ⟨ihs, ?_, ?_⟩
      · rw [ihb, hblen, hdesc, List.map_cons, spec_cycle_count_cons]
        omega
      · rw [iht, htlen, hdesc, List.map_cons, spec_cycle_count_cons]
        omega

lemma add_new_mono (L : List ℚ → Option (List ℚ)) (conf : RunConfQ)
    (st : DataState) (p : ℚ × ℚ) (st1 : DataState)
    (h : add_new L conf st p = some st1) :
    st.bar_h.length ≤ st1.bar_h.length ∧
    ∀ k, k < st.bar_h.length → st.bar_h.getD k 0 ≤ st1.bar_h.getD k 0 := by
  cases hs : st.run_started with
  | true =>
    have ha2 : add_started L conf st p.1 p.2 = some st1 := by
      simpa [add_new, hs] using h
    obtain ⟨_, _, hblen, _, hmono⟩ :=
      add_started_count L conf st p.1 p.2 st1 ha2
    constructor
    · omega
    · exact hmono
  | false =>
    by_cases hy : MIN_FREQ_START < p.2
    · simp only [add_new, hs, if_true, gt_iff_lt, hy, reduceIte] at h
      obtain ⟨_, _, hblen, _, hmono⟩ :=
        add_started_count L conf _ p.1 p.2 st1 h
      dsimp only at hblen hmono
      simp only [List.length_append, List.length_cons, List.length_nil] at hblen
      constructor
      · omega
      · intro k hk
        have h1 := hmono k (by simp; omega)
        rw [List.getD_append _ _ _ _ hk] at h1
        exact h1
    · have hst : st1 = st := by
        rw [add_new_low_noop L conf st p hs hy] at h
        exact (Option.some.injEq _ _).mp h.symm
      subst hst
      exact ⟨le_refl _, fun k _ => le_refl _⟩

lemma runPoints_mono (L : List ℚ → Option (List ℚ)) (conf : RunConfQ) :
    ∀ (tr : List (ℚ × ℚ)) (st st' : DataState),
      runPoints L conf st tr = some st' →
      st.bar_h.length ≤ st'.bar_h.length ∧
      ∀ k, k < st.bar_h.length → st.bar_h.getD k 0 ≤ st'.bar_h.getD k 0 := by
  intro tr
  induction tr with
  | nil =>
    intro st st' h
    simp only [runPoints, Option.some.injEq] at h
    subst h
    exact ⟨le_refl _, fun k _ => le_refl _⟩
  | cons p ps ih =>
    intro st st' h
    simp only [runPoints] at h
    rcases ha : add_new L conf st p with _ | st1
    · rw [ha] at h
      simp at h
    · rw [ha] at h
      obtain ⟨hlen1, hmono1⟩ := add_new_mono L conf st p st1 ha
      obtain ⟨hlen2, hmono2⟩ := ih st1 st' h
      refine ⟨le_trans hlen1 hlen2, ?_⟩
      intro k hk
      exact le_trans (hmono1 k hk) (hmono2 k (lt_of_lt_of_le hk hlen1))

lemma runPoints_append (L : List ℚ → Option (List ℚ)) (conf : RunConfQ) :
    ∀ (t1 t2 : List (ℚ × ℚ)) (st : DataState),
      runPoints L conf st (t1 ++ t2) =
        (runPoints L conf st t1).bind (fun s => runPoints L conf s t2) := by
  intro t1
  induction t1 with
  | nil =>
    intro t2 st
    rfl
  | cons p ps ih =>
    intro t2 st
    simp only [List.cons_append, runPoints]
    rcases ha : add_new L conf st p with _ | st1
    · rfl
    · exact ih t2 st1

lemma runPoints_slots (L : List ℚ → Option (List ℚ)) (conf : RunConfQ) :
    ∀ (tr : List (ℚ × ℚ)) (st' : DataState),
      runPoints L conf initState tr = some st' →
      st'.bar_h.length = spec_slots tr ∧
      st'.new_bar_time.length = spec_slots tr := by
  intro tr
  induction tr with
  | nil =>
    intro st' h
    simp only [runPoints, Option.some.injEq] at h
    subst h
    exact ⟨rfl, rfl⟩
  | cons p ps ih =>
    intro st' h
    simp only [runPoints] at h
    by_cases hp : MIN_FREQ_START < p.2
    · rw [add_new_start_from_empty L conf p hp] at h
      obtain ⟨_, hb, ht⟩ := runPoints_started_count L conf ps
        ⟨[p.1], [p.2], [0], [0], false, true⟩ st' rfl h
      have hss : spec_slots (p :: ps)
          = 1 + spec_cycle_count false (ps.map Prod.snd) := by
        simp [spec_slots, List.dropWhile_cons, hp]
      rw [hss]
      simp only [List.length_cons, List.length_nil] at hb ht
      exact ⟨by omega, by omega⟩
    · rw [add_new_low_noop L conf initState p rfl hp] at h
      have hss : spec_slots (p :: ps) = spec_slots ps := by
        simp [spec_slots, List.dropWhile_cons, hp]
      rw [hss]
      exact ih st' h

/-- Claim C9.  Running the online segmenter from the initial state: the
number of bar-height slots always equals the spec-side count (one slot at
the first threshold crossing plus one per completed
fall-below-0.9-then-rise-above-1.0 hysteresis cycle — in particular N
cycles give N+1 slots), the bar list length always equals the number of
recorded repetition boundaries, and each slot's value is monotonically
non-decreasing over the rest of the run. -/
theorem C9_online_segmenter (L : List ℚ → Option (List ℚ))
    (conf : RunConfQ) (trace1 trace2 : List (ℚ × ℚ))
    (st1 st2 : DataState)
    (h1 : runPoints L conf initState trace1 = some st1)
    (h2 : runPoints L conf st1 trace2 = some st2) :
    st2.bar_h.length = spec_slots (trace1 ++ trace2) ∧
    st2.bar_h.length = st2.new_bar_time.length ∧
    ∀ k, k < st1.bar_h.length → st1.bar_h.getD k 0 ≤ st2.bar_h.getD k 0 := by
  have hcomp : runPoints L conf initState (trace1 ++ trace2) = some st2 := by
    rw [runPoints_append L conf trace1 trace2 initState, h1]
    exact h2
  obtain ⟨hb, ht⟩ := runPoints_slots L conf (trace1 ++ trace2) st2 hcomp
  obtain ⟨_, hmono⟩ := runPoints_mono L conf trace2 st1 st2 h2
  exact ⟨hb, hb.trans ht.symm, hmono⟩

/-- Witness for C9: a trace starting one hysteresis cycle and a
continuation completing a second one; the final state has 3 slots. -/
theorem C9_online_segmenter_witness :
    ((runPoints Lid conf0
      ((runPoints Lid conf0 initState
        [(0, 1), (1, 3), (2, 1/2), (3, 2)]).getD initState)
      [(4, 1/2), (5, 3)]).getD initState).bar_h.length
      = spec_slots ([(0, 1), (1, 3), (2, 1/2), (3, 2)] ++ [(4, 1/2), (5, 3)]) ∧
    spec_slots ([(0, 1), (1, 3), (2, 1/2), (3, 2)] ++ [(4, 1/2), (5, 3)]) = 3 := by
  constructor
  · exact (C9_online_segmenter Lid conf0
      [(0, 1), (1, 3), (2, 1/2), (3, 2)] [(4, 1/2), (5, 3)]
      ((runPoints Lid conf0 initState
        [(0, 1), (1, 3), (2, 1/2), (3, 2)]).getD initState)
      ((runPoints Lid conf0
        ((runPoints Lid conf0 initState
          [(0, 1), (1, 3), (2, 1/2), (3, 2)]).getD initState)
        [(4, 1/2), (5, 3)]).getD initState)
      (by decide) (by decide)).1
  · decide

end SmartInertia
